import Mathlib

/-!
Verification of the webdownloader pipeline (`src/wd.py`).

The Python source is shallowly embedded: strings are Lean `String`s
manipulated through explicit `List Char` helpers (all structural
recursion, so every definition evaluates in the kernel), the
filesystem is a partial map from file names to contents, and the
network is a parameter (an outcome per attempt, a body per URL).
Character-level operations model Python's ASCII behaviour
(`str.isalnum`, `str.lower`, `str.strip`), which is what the
repository's inputs exercise.
-/

namespace WD

/-! ## String helpers (List Char level, kernel-evaluable) -/

/-- Split a character list at every occurrence of `sep`, Python
`str.split(sep)` semantics: `"" ↦ [""]`, separators at the ends give
empty fields. -/
def splitCh (sep : Char) : List Char → List (List Char)
  | [] => [[]]
  | c :: cs =>
    let r := splitCh sep cs
    if c = sep then [] :: r
    else
      match r with
      | [] => [[c]]
      | h :: t => (c :: h) :: t

/-- Python `str.lower()` restricted to ASCII. -/
def lowerL (l : List Char) : List Char := l.map Char.toLower

/-- Does `l` start with `p`? (Python `str.startswith`.) -/
def startsL : List Char → List Char → Bool
  | _, [] => true
  | [], _ :: _ => false
  | a :: as, b :: bs => (a = b) && startsL as bs

/-- Does `l` end with `s`? (Python `str.endswith`.) -/
def endsL (l s : List Char) : Bool := startsL l.reverse s.reverse

/-- Python `str.strip()` (default whitespace) on a character list. -/
def stripL (l : List Char) : List Char :=
  ((l.dropWhile Char.isWhitespace).reverse.dropWhile Char.isWhitespace).reverse

/-- Python `str.rstrip()` (default whitespace) on a character list. -/
def rstripL (l : List Char) : List Char :=
  (l.reverse.dropWhile Char.isWhitespace).reverse

/-- String-level wrappers. -/
def pyLower (s : String) : String := String.mk (lowerL s.data)

def pySplit (sep : Char) (s : String) : List String :=
  (splitCh sep s.data).map String.mk

def pyStartsWith (s p : String) : Bool := startsL s.data p.data

def pyEndsWith (s p : String) : Bool := endsL s.data p.data

/-! ## pathlib model

Destination paths handled by the downloader are bare file names (the
output directory is a run-constant prefix and is dropped from the
model), so `pathlib`'s `name`, `stem`, `suffix` and `with_suffix` are
modelled on plain strings. -/

/-- Last nonempty `/`-separated segment, `pathlib.PurePosixPath(p).name`. -/
def pathName (p : String) : String :=
  (((splitCh '/' p.data).filter (fun l => l ≠ [])).getLastD []) |> String.mk

/-- Index of the last `'.'` in a name, if any. -/
def lastDotIdx (l : List Char) : Option Nat :=
  match l.reverse.findIdx? (· = '.') with
  | none => none
  | some j => some (l.length - 1 - j)

/-- Extension of a bare file name: `pathlib`'s `.suffix` — the part from
the last dot, unless that dot is the first or the last character. -/
def nameSuffix (n : String) : String :=
  match lastDotIdx n.data with
  | none => ""
  | some i => if 0 < i ∧ i < n.data.length - 1 then String.mk (n.data.drop i) else ""

/-- Stem of a bare file name: `pathlib`'s `.stem`. -/
def nameStem (n : String) : String :=
  match lastDotIdx n.data with
  | none => n
  | some i => if 0 < i ∧ i < n.data.length - 1 then String.mk (n.data.take i) else n

/-- `pathlib`'s `with_suffix`: the old suffix is removed and `s` appended. -/
def withSuffix (n s : String) : String := nameStem n ++ s

/-- `pathlib.Path(url).stem` for a URL treated as a path string. -/
def pathStem (p : String) : String := nameStem (pathName p)

/-- `pathlib.Path(p).suffix` for a path string. -/
def pathSuffix (p : String) : String := nameSuffix (pathName p)

/-- Characters after the first occurrence of `"://"`, if any. -/
def afterSchemeSep : List Char → Option (List Char)
  | ':' :: '/' :: '/' :: rest => some rest
  | _ :: rest => afterSchemeSep rest
  | [] => none

/-- Path component of `urllib.parse.urlparse(u)` for an
absolute `scheme://netloc/...` URL: the fragment is cut at the first
`'#'`, the query at the first `'?'`, and the path starts at the first
`'/'` after the authority (a URL without `"://"` is all path). -/
def urlPath (u : String) : String :=
  let noFrag := (splitCh '#' u.data).headD []
  let noQuery := (splitCh '?' noFrag).headD []
  match afterSchemeSep noQuery with
  | some rest => String.mk (rest.dropWhile (· ≠ '/'))
  | none => String.mk noQuery

/-! ## Extension table and configuration parsing (`wd.py` lines 25–34, 139–152) -/

/-- Supported extensions and their canonical MIME types, in the
source's insertion order (`ALL_EXTENSIONS` dict in `wd.py`). Python
dicts preserve insertion order, so the table is a list of pairs. -/
def ALL_EXTENSIONS : List (String × String) :=
  [ (".pdf",      "application/pdf"),
    (".doc",      "application/msword"),
    (".docx",     "application/vnd.openxmlformats-officedocument.wordprocessingml.document"),
    (".md",       "text/markdown"),
    (".markdown", "text/markdown"),
    (".html",     "text/html"),
    (".htm",      "text/html"),
    (".txt",      "text/plain") ]

/-- Dictionary lookup on an insertion-ordered association list. -/
def dictLookup (d : List (String × String)) (k : String) : Option String :=
  (d.find? (fun p => p.1 = k)).map (fun p => p.2)

/-- Dictionary insert: an existing key keeps its position and gets the
new value, a new key is appended (Python dict assignment). -/
def dictInsert (d : List (String × String)) (k v : String) : List (String × String) :=
  if d.any (fun p => p.1 = k) then d.map (fun p => if p.1 = k then (k, v) else p)
  else d ++ [(k, v)]

/-- Embedding of `sanitize_filename` (`wd.py` line 139): keep
alphanumerics plus space, dot, underscore, hyphen, then strip trailing
whitespace. -/
def sanitize_filename (name : String) : String :=
  String.mk (rstripL (name.data.filter
    (fun c => c.isAlphanum || c = ' ' || c = '.' || c = '_' || c = '-')))

/-- Token normalisation of `parse_only` (`wd.py` line 147),
`tok.strip().lower().lstrip('.')` — note `lstrip('.')` removes every
leading dot. -/
def normTok (tok : String) : String :=
  String.mk ((lowerL (stripL tok.data)).dropWhile (· = '.'))

/-- Key looked up for a token, `f".{tok}"` (`wd.py` line 148). -/
def normKey (tok : String) : String := "." ++ normTok tok

/-- Body of the token loop in `parse_only` (`wd.py` lines 146–151). -/
def parseStep (exts : List (String × String)) (tok : String) :
    Except String (List (String × String)) :=
  match dictLookup ALL_EXTENSIONS (normKey tok) with
  | some m => Except.ok (dictInsert exts (normKey tok) m)
  | none => Except.error ("Unsupported extension: " ++ normTok tok)

/-- Embedding of `parse_only` (`wd.py` line 144): an unknown key raises
`ValueError`, modelled as `Except.error`. -/
def parse_only (arg : String) : Except String (List (String × String)) :=
  (pySplit ',' arg).foldlM parseStep []

/-! ## Filesystem model and `download_file` (`wd.py` lines 155–180)

The filesystem is a partial map from file names to contents. The HTTP
body fetched for the URL and the `magic` MIME sniffer are parameters.
`tmp.unlink(missing_ok=True)` deletes unconditionally and
`tmp.rename(dest)` is POSIX `rename`, which replaces an existing
target. -/

def FS := String → Option String

def fsSet (fs : FS) (n c : String) : FS := fun m => if m = n then some c else fs m

def fsDel (fs : FS) (n : String) : FS := fun m => if m = n then none else fs m

/-- Temporary staging name, `dest.with_suffix(dest.suffix + '.part')`. -/
def tmpName (dest : String) : String := withSuffix dest (nameSuffix dest ++ ".part")

/-- Primary type of a MIME string: `mime.split('/')[0]`. -/
def mimePrimary (m : String) : String := String.mk ((splitCh '/' m.data).headD [])

/-- Embedding of `download_file` (`wd.py` lines 155–180), the run that
reaches the verification decision (transport failures are modelled in
`download_file_trace` and `download_with_retry`). Returns the Python
return value, the final destination name (the rename target on
acceptance; `dest` unchanged on rejection) and the resulting
filesystem. `sniff body` stands for `magic.from_file(tmp, mime=True)`
after the full body was written to `tmp`. -/
def download_file (sniff : String → String) (allowed : List (String × String))
    (dest body : String) (fs0 : FS) : Bool × String × FS :=
  let tmp := tmpName dest
  let fs1 := fsSet fs0 tmp body
  let mime := sniff body
  let ext := pyLower (nameSuffix dest)
  match dictLookup allowed ext with
  | some m =>
    if pyStartsWith mime (mimePrimary m) then
      (true, dest, fsSet (fsDel fs1 tmp) dest body)
    else
      (false, dest, fsDel fs1 tmp)
  | none =>
    match allowed.find? (fun p => p.2 = mime) with
    | some p =>
      let d := withSuffix dest p.1
      (true, d, fsSet (fsDel fs1 tmp) d body)
    | none =>
      (false, dest, fsDel fs1 tmp)

/-- Ways a single `download_file` call can go, including transport
failures: `getFails` models `requests.get`/`raise_for_status` raising
before any file is touched, `streamFails k` models the body stream
breaking after `k` chunks were written to the temporary file, and
`complete` reaches the verification decision. -/
inductive DLScenario
  | getFails
  | streamFails (k : Nat)
  | complete

/-- Number of 4096-byte chunks `iter_content(4096)` yields for `body`. -/
def numChunks (body : String) : Nat := (body.length + 4095) / 4096

/-- Filesystem states after `open(tmp,'wb')` (truncate) and after each
of the first `k` chunk writes. -/
def chunkStates (fs0 : FS) (tmp body : String) (k : Nat) : List FS :=
  fsSet fs0 tmp "" ::
    (List.range k).map (fun i => fsSet fs0 tmp (String.mk (body.data.take (4096 * (i + 1)))))

/-- Every filesystem state a `download_file` call makes observable, in
order, starting from `fs0`, for a given scenario. -/
def download_file_trace (sniff : String → String) (allowed : List (String × String))
    (dest body : String) (fs0 : FS) : DLScenario → List FS
  | .getFails => [fs0]
  | .streamFails k => fs0 :: chunkStates fs0 (tmpName dest) body (min k (numChunks body))
  | .complete =>
    fs0 :: chunkStates fs0 (tmpName dest) body (numChunks body) ++
      [(download_file sniff allowed dest body fs0).2.2]

/-! ## Retry loops (`wd.py` lines 60–78 and 183–200) -/

/-- Outcome of one `requests.get` in `_get_with_retry`: either the
transport layer raises (`requests.RequestException`) or a response
with a status code and body arrives. -/
inductive GetOutcome
  | exn
  | resp (status : Nat) (body : String)

/-- A response survives the body of the `try` block iff it is not a
429 (explicitly raised as `HTTPError`) and `raise_for_status()` does
not raise (it raises for 400 ≤ status < 600). -/
def respOk : GetOutcome → Option (Nat × String)
  | .exn => none
  | .resp s b => if s = 429 then none else if 400 ≤ s ∧ s < 600 then none else some (s, b)

/-- Loop of `_get_with_retry` (`wd.py` lines 60–78): `fuel` is the
number of attempts still available, `attempt` the 1-based index of the
current one, `delay` the current backoff. Returns the Python return
value (`none` models returning `None`) and the list of sleep durations
performed, in order. -/
def gwrAux (outs : Nat → GetOutcome) : Nat → Nat → Nat → Option (Nat × String) × List Nat
  | 0, _, _ => (none, [])
  | fuel + 1, attempt, delay =>
    match respOk (outs attempt) with
    | some r => (some r, [])
    | none =>
      if fuel = 0 then (none, [])
      else
        let p := gwrAux outs fuel (attempt + 1) (delay * 2)
        (p.1, delay :: p.2)

/-- Embedding of `SearchEngine._get_with_retry` with its default
`max_attempts=3` exposed as a parameter; initial delay is 1. -/
def get_with_retry (outs : Nat → GetOutcome) (maxAttempts : Nat) :
    Option (Nat × String) × List Nat :=
  gwrAux outs maxAttempts 1 1

/-- Outcome of one `download_file` call inside `download_with_retry`:
either it raises a `requests.RequestException`/`OSError`, or it runs to
its verification decision and returns a boolean. -/
inductive AttemptOutcome
  | raises
  | completes (b : Bool)

/-- Loop of `download_with_retry` (`wd.py` lines 189–200). A completed
`download_file` call returns immediately (`return download_file(...)`),
whatever its boolean; a raising one sleeps and doubles the delay unless
it was the last attempt, which returns `False`. `none` models Python's
implicit `None` when the loop body never runs (`attempts = 0`). -/
def dwrAux (f : Nat → AttemptOutcome) : Nat → Nat → Nat → Option Bool × List Nat
  | 0, _, _ => (none, [])
  | fuel + 1, i, delay =>
    match f i with
    | .completes b => (some b, [])
    | .raises =>
      if fuel = 0 then (some false, [])
      else
        let p := dwrAux f fuel (i + 1) (delay * 2)
        (p.1, delay :: p.2)

/-- Retry wrapper of `download_with_retry` (`wd.py` line 183) around
attempt outcomes, with its `attempts = 3` exposed; initial delay is 1. -/
def download_with_retry_loop (f : Nat → AttemptOutcome) (attempts : Nat) :
    Option Bool × List Nat :=
  dwrAux f attempts 1 1

/-- Destination-name derivation of `download_with_retry` (`wd.py`
lines 184–188): `sanitize_filename(Path(url).stem) or uuid.uuid4().hex`
with the fresh uuid token a parameter, then
`ext = Path(urlparse(url).path).suffix.lower()` and
`dest.with_suffix(ext)` when `ext` is a key of `allowed`. -/
def derive_name (url fresh : String) : String :=
  let n := sanitize_filename (pathStem url)
  if n = "" then fresh else n

def derive_dest (url fresh : String) (allowed : List (String × String)) : String :=
  let name := derive_name url fresh
  let ext := pyLower (pathSuffix (urlPath url))
  if (dictLookup allowed ext).isSome then withSuffix name ext else name

/-! ## Search orchestration and planner loop (`wd.py` lines 234–256) -/

/-- Engine order built in `main`: the preferred engine first, then the
remaining registered engines in registration order
(`[primary] + [e for e in ENGINES if e != primary]`). -/
def orderedNames (primary : String) (names : List String) : List String :=
  primary :: names.filter (fun n => n ≠ primary)

/-- Engine fallback loop for one query (`wd.py` lines 244–256, the part
that picks which engine's results are consumed): try each engine in
order, stop at the first nonempty result list, sleep `SEARCH_PAUSE`
after each empty one. Returns the consumed results, the names of the
engines whose `search` was invoked, and the number of pauses slept. -/
def tryEngines (engines : List (String × (String → List String))) (q : String) :
    List String × List String × Nat :=
  match engines with
  | [] => ([], [], 0)
  | e :: rest =>
    let r := e.2 q
    if r.isEmpty then
      let p := tryEngines rest q
      (p.1, e.1 :: p.2.1, p.2.2 + 1)
    else (r, [e.1], 0)

/-- Candidate-consumption loop (`wd.py` lines 249–253): append each
result URL that, lowercased, ends with the current extension and is not
already collected; stop as soon as `maxN` candidates are collected. -/
def addCands (maxN : Nat) (ext : String) : List String → List String → List String
  | docUrls, [] => docUrls
  | docUrls, u :: us =>
    if pyEndsWith (pyLower u) ext && !(docUrls.contains u) then
      let d := docUrls ++ [u]
      if maxN ≤ d.length then d else addCands maxN ext d us
    else addCands maxN ext docUrls us

/-- Planner loop of `main` (`wd.py` lines 239–256): for each allowed
extension (insertion order), unless the maximum is already reached,
build the `filetype:` query, run the engine fallback and consume its
results. Also accumulates the names of all invoked engines. -/
def planLoop (engines : List (String × (String → List String))) (subject : String)
    (maxN : Nat) : List (String × String) → List String → List String × List String
  | [], docUrls => (docUrls, [])
  | (ext, _) :: rest, docUrls =>
    if maxN ≤ docUrls.length then (docUrls, [])
    else
      let suffix := String.mk (ext.data.dropWhile (· = '.'))
      let q := subject ++ " filetype:" ++ suffix
      let t := tryEngines engines q
      let p := planLoop engines subject maxN rest (addCands maxN ext docUrls t.1)
      (p.1, t.2.1 ++ p.2)

/-- Search phase of `main` (`wd.py` lines 222 and 239–256): the
allow-list option is parsed first (`ALL_EXTENSIONS` when absent); a
parse error aborts before any engine is invoked. Returns the candidate
URLs and the log of invoked engine names. -/
def mainSearchPhase (engines : List (String × (String → List String)))
    (subject : String) (maxN : Nat) (only : Option String) :
    Except String (List String) × List String :=
  match (match only with
         | none => Except.ok ALL_EXTENSIONS
         | some s => parse_only s) with
  | .error e => (.error e, [])
  | .ok allowed =>
    let p := planLoop engines subject maxN allowed []
    (.ok p.1, p.2)

end WD

/-! Sanity examples for the path model (concrete evaluation). -/

example : WD.pathName "http://h/a.xyz" = "a.xyz" := by decide
example : WD.nameSuffix "a.pdf" = ".pdf" := by decide
example : WD.nameStem "a.pdf" = "a" := by decide
example : WD.nameSuffix "a" = "" := by decide
example : WD.nameSuffix ".pdf" = "" := by decide
example : WD.nameSuffix "a." = "" := by decide
example : WD.withSuffix "a.b" ".pdf" = "a.pdf" := by decide
example : WD.urlPath "http://h/x?y=.pdf" = "/x" := by decide
example : WD.urlPath "http://h/a.pdf" = "/a.pdf" := by decide
example : WD.pathStem "http://h/doc?id=5" = "doc?id=5" := by decide
example : WD.pyLower "A.PdF" = "a.pdf" := by decide
example : WD.pyEndsWith "http://h/A.PDF" ".pdf" = false := by decide
example : WD.pyEndsWith (WD.pyLower "http://h/A.PDF") ".pdf" = true := by decide
example : WD.sanitize_filename "a b_c-d.e/f$g " = "a b_c-d.efg" := by decide
example : WD.sanitize_filename "$$$ " = "" := by decide
example : WD.parse_only "pdf, .TXT" =
    Except.ok [(".pdf", "application/pdf"), (".txt", "text/plain")] := by rfl
example : WD.parse_only "..pdf" = Except.ok [(".pdf", "application/pdf")] := by rfl
example : (WD.parse_only "pdf,zip").isOk = false := by decide
example : WD.dictLookup WD.ALL_EXTENSIONS ".md" = some "text/markdown" := by decide
example : WD.tmpName "a.pdf" = "a.pdf.part" := by decide
example : WD.tmpName "a" = "a.part" := by decide
example : WD.mimePrimary "application/pdf" = "application" := by decide
example :
    (WD.download_file (fun _ => "application/pdf") WD.ALL_EXTENSIONS "a.pdf" "B"
      (fun _ => none)).1 = true := by decide
example :
    (WD.download_file (fun _ => "application/pdf") WD.ALL_EXTENSIONS "a.txt" "B"
      (fun _ => none)).1 = false := by decide
example :
    (WD.download_file (fun _ => "text/markdown") WD.ALL_EXTENSIONS "a" "B"
      (fun _ => none)).2.1 = "a.md" := by decide
example :
    (WD.download_file (fun _ => "text/markdown") WD.ALL_EXTENSIONS "a" "B"
      (fun _ => none)).2.2 "a.md" = some "B" := by decide
example : WD.get_with_retry (fun _ => .exn) 3 = (none, [1, 2]) := by decide
example : WD.get_with_retry (fun i => if i = 1 then .resp 429 "x" else .resp 200 "y") 3 =
    (some (200, "y"), [1]) := by decide
example : WD.download_with_retry_loop (fun _ => .completes false) 3 = (some false, []) := by decide
example : WD.download_with_retry_loop (fun _ => .raises) 3 = (some false, [1, 2]) := by decide
example : WD.derive_dest "http://h/doc?id=5" "F" WD.ALL_EXTENSIONS = "docid5" := by decide
example : WD.derive_dest "http://h/a.pdf?x=1" "F" WD.ALL_EXTENSIONS = "a.pdf" := by decide
example : WD.derive_dest "http://h/a.xyz" "F" WD.ALL_EXTENSIONS = "a" := by decide
example : WD.derive_dest "http://h/%%%" "F" WD.ALL_EXTENSIONS = "F" := by decide
example :
    WD.tryEngines [("p", fun _ => []), ("o1", fun _ => ["a", "b"]), ("o2", fun _ => ["c"])] "q" =
      (["a", "b"], ["p", "o1"], 1) := by decide
example :
    (WD.planLoop [("e", fun _ => ["http://h/x?y=.pdf", "http://h/A.PDF", "http://h/A.PDF"])]
      "s" 5 [(".pdf", "application/pdf")] []).1 =
      ["http://h/x?y=.pdf", "http://h/A.PDF"] := by decide
example :
    WD.mainSearchPhase [("e", fun _ => ["u"])] "s" 5 (some "zip") =
      (Except.error "Unsupported extension: zip", []) := by rfl

/-! ## Claim theorems -/

namespace WD

/-- C4: for every search GET, `_get_with_retry` makes at most 3
attempts (the result depends only on the first three outcomes), sleeps
between consecutive failed attempts with strictly doubling delays 1
then 2, treats an HTTP 429 response exactly like a transport error for
retry purposes, returns the response immediately on the first
successful attempt, and after 3 failed attempts returns `None` (no
exception reaches the caller: the embedding is a total function into
`Option`). -/
theorem wd_C4 (outs : Nat → GetOutcome) :
    (∀ outs' : Nat → GetOutcome, (∀ i, 1 ≤ i → i ≤ 3 → outs' i = outs i) →
      get_with_retry outs' 3 = get_with_retry outs 3)
    ∧ (∀ r, respOk (outs 1) = some r → get_with_retry outs 3 = (some r, []))
    ∧ (∀ r, respOk (outs 1) = none → respOk (outs 2) = some r →
        get_with_retry outs 3 = (some r, [1]))
    ∧ (∀ r, respOk (outs 1) = none → respOk (outs 2) = none → respOk (outs 3) = some r →
        get_with_retry outs 3 = (some r, [1, 2]))
    ∧ (respOk (outs 1) = none → respOk (outs 2) = none → respOk (outs 3) = none →
        get_with_retry outs 3 = (none, [1, 2]))
    ∧ (∀ b s, respOk (GetOutcome.resp 429 b) = respOk GetOutcome.exn
        ∧ (500 ≤ s → s < 600 → respOk (GetOutcome.resp s b) = respOk GetOutcome.exn)) := by
  refine ⟨?_, ?_, ?_, ?_, ?_, ?_⟩
  · intro outs' h
    have h1 := h 1 (by omega) (by omega)
    have h2 := h 2 (by omega) (by omega)
    have h3 := h 3 (by omega) (by omega)
    simp [get_with_retry, gwrAux, h1, h2, h3]
  · intro r hr
    simp [get_with_retry, gwrAux, hr]
  · intro r h1 hr
    simp [get_with_retry, gwrAux, h1, hr]
  · intro r h1 h2 hr
    simp [get_with_retry, gwrAux, h1, h2, hr]
  · intro h1 h2 h3
    simp [get_with_retry, gwrAux, h1, h2, h3]
  · intro b s
    constructor
    · rfl
    · intro h5 h6
      simp [respOk]
      omega

/-- Witness for C4 at concrete inputs: an immediate success returns
the first response with no sleeps, and three straight failures (a 429,
a transport error, a 503) return `none` after sleeping 1 then 2. -/
theorem wd_C4_witness :
    get_with_retry (fun _ => GetOutcome.resp 200 "ok") 3 = (some (200, "ok"), []) ∧
      get_with_retry
        (fun i => if i = 1 then GetOutcome.resp 429 "x"
                  else if i = 2 then GetOutcome.exn else GetOutcome.resp 503 "y") 3 =
        (none, [1, 2]) :=
  ⟨(wd_C4 (fun _ => GetOutcome.resp 200 "ok")).2.1 (200, "ok") rfl,
   (wd_C4 _).2.2.2.2.1 rfl rfl rfl⟩

/-- Helper for C5: the fallback loop consumes exactly the first engine
whose `search` returns a nonempty list. -/
theorem tryEngines_first_nonempty (q : String) :
    ∀ (pre : List (String × (String → List String))) (e : String × (String → List String))
      (post : List (String × (String → List String))),
      (∀ f ∈ pre, f.2 q = []) → e.2 q ≠ [] →
      tryEngines (pre ++ e :: post) q = (e.2 q, pre.map Prod.fst ++ [e.1], pre.length) := by
  intro pre
  induction pre with
  | nil =>
    intro e post _ he
    simp only [List.nil_append, tryEngines]
    rw [if_neg (by simpa [List.isEmpty_iff] using he)]
    simp
  | cons a pre ih =>
    intro e post hpre he
    have ha : a.2 q = [] := hpre a (List.mem_cons_self a pre)
    have hrec := ih e post (fun f hf => hpre f (List.mem_cons_of_mem a hf)) he
    simp only [List.cons_append, tryEngines, ha, List.isEmpty_nil, if_true, List.append_eq, hrec]
    simp

/-- Helper for C5: when every engine returns an empty list the loop
returns an empty list, having invoked each engine once and paused once
after each of them. -/
theorem tryEngines_all_empty (q : String) :
    ∀ engines : List (String × (String → List String)),
      (∀ f ∈ engines, f.2 q = []) →
      tryEngines engines q = ([], engines.map Prod.fst, engines.length) := by
  intro engines
  induction engines with
  | nil => intro _; rfl
  | cons a rest ih =>
    intro h
    have ha : a.2 q = [] := h a (List.mem_cons_self a rest)
    simp only [tryEngines, ha, List.isEmpty_nil, if_true,
      ih (fun f hf => h f (List.mem_cons_of_mem a hf))]
    rfl

/-- C5: engines are tried preferred-first then in registration order
(`orderedNames`); the first engine returning a nonempty list stops the
fallback and exactly its results are consumed, later engines are never
invoked, and one fixed pause is inserted after each empty-handed
engine; if every engine yields nothing the query contributes an empty
list rather than an error. In particular, for engines
`[preferred, other1, other2]` with `preferred` empty and `other1`
returning `["a", "b"]`, the result is exactly `["a", "b"]` and
`other2` is not invoked, whatever `other2` would have returned. -/
theorem wd_C5 (q primary : String) :
    (∀ (pre : List (String × (String → List String))) (e : String × (String → List String))
        (post : List (String × (String → List String))),
      (∀ f ∈ pre, f.2 q = []) → e.2 q ≠ [] →
      tryEngines (pre ++ e :: post) q = (e.2 q, pre.map Prod.fst ++ [e.1], pre.length))
    ∧ (∀ engines : List (String × (String → List String)),
        (∀ f ∈ engines, f.2 q = []) →
        tryEngines engines q = ([], engines.map Prod.fst, engines.length))
    ∧ (∀ names : List String,
        orderedNames primary names = primary :: names.filter (fun n => n ≠ primary))
    ∧ (∀ g : String → List String,
        tryEngines [("preferred", fun _ => []), ("other1", fun _ => ["a", "b"]),
            ("other2", g)] q =
          (["a", "b"], ["preferred", "other1"], 1)) := by
  refine ⟨tryEngines_first_nonempty q, tryEngines_all_empty q, fun _ => rfl, ?_⟩
  intro g
  have h := tryEngines_first_nonempty q [("preferred", fun _ => [])]
    ("other1", fun _ => ["a", "b"]) [("other2", g)] (by simp) (by simp)
  simpa using h

/-- Witness for C5: the concrete three-engine scenario of the claim,
with a third engine that would have returned a result. -/
theorem wd_C5_witness :
    tryEngines [("preferred", fun _ => []), ("other1", fun _ => ["a", "b"]),
        ("other2", fun _ => ["c"])] "q" =
      (["a", "b"], ["preferred", "other1"], 1) :=
  (wd_C5 "q" "duckduckgo").2.2.2 (fun _ => ["c"])

/-- C6: `download_with_retry` retries the fetch-and-verify sequence up
to 3 attempts (the result depends only on the first three outcomes)
with backoff sleeps 1 then 2, but only when the attempt raises a
transport or filesystem error; a completed `download_file` call —
including a verification rejection, `completes false` — is returned
immediately with no further attempt, and after 3 raising attempts the
result is `False` with no exception propagating (total function). -/
theorem wd_C6 (f : Nat → AttemptOutcome) :
    (∀ f' : Nat → AttemptOutcome, (∀ i, 1 ≤ i → i ≤ 3 → f' i = f i) →
      download_with_retry_loop f' 3 = download_with_retry_loop f 3)
    ∧ (∀ b, f 1 = .completes b → download_with_retry_loop f 3 = (some b, []))
    ∧ (∀ b, f 1 = .raises → f 2 = .completes b →
        download_with_retry_loop f 3 = (some b, [1]))
    ∧ (∀ b, f 1 = .raises → f 2 = .raises → f 3 = .completes b →
        download_with_retry_loop f 3 = (some b, [1, 2]))
    ∧ (f 1 = .raises → f 2 = .raises → f 3 = .raises →
        download_with_retry_loop f 3 = (some false, [1, 2])) := by
  refine ⟨?_, ?_, ?_, ?_, ?_⟩
  · intro f' h
    have h1 := h 1 (by omega) (by omega)
    have h2 := h 2 (by omega) (by omega)
    have h3 := h 3 (by omega) (by omega)
    simp [download_with_retry_loop, dwrAux, h1, h2, h3]
  · intro b hb
    simp [download_with_retry_loop, dwrAux, hb]
  · intro b h1 hb
    simp [download_with_retry_loop, dwrAux, h1, hb]
  · intro b h1 h2 hb
    simp [download_with_retry_loop, dwrAux, h1, h2, hb]
  · intro h1 h2 h3
    simp [download_with_retry_loop, dwrAux, h1, h2, h3]

/-- Witness for C6 at concrete inputs: a first-attempt verification
rejection is returned at once with no sleep, and three raising attempts
give `False` after sleeping 1 then 2. -/
theorem wd_C6_witness :
    download_with_retry_loop (fun _ => AttemptOutcome.completes false) 3 = (some false, []) ∧
      download_with_retry_loop (fun _ => AttemptOutcome.raises) 3 = (some false, [1, 2]) :=
  ⟨(wd_C6 (fun _ => AttemptOutcome.completes false)).2.1 false rfl,
   (wd_C6 (fun _ => AttemptOutcome.raises)).2.2.2.2 rfl rfl rfl⟩

end WD

namespace WD

/-- Helper for C3: the consumption loop never grows the candidate list
past the maximum. -/
theorem addCands_length (maxN : Nat) (ext : String) :
    ∀ (us docUrls : List String), docUrls.length < maxN →
      (addCands maxN ext docUrls us).length ≤ maxN := by
  intro us
  induction us with
  | nil => intro docUrls h; simpa [addCands] using Nat.le_of_lt h
  | cons u us ih =>
    intro docUrls h
    simp only [addCands]
    by_cases hc : (pyEndsWith (pyLower u) ext && !(docUrls.contains u)) = true
    · rw [if_pos hc]
      by_cases hm : maxN ≤ (docUrls ++ [u]).length
      · rw [if_pos hm]
        simpa using h
      · rw [if_neg hm]
        exact ih (docUrls ++ [u]) (Nat.lt_of_not_le hm)
    · rw [if_neg hc]
      exact ih docUrls h

/-- Helper for C3: the consumption loop preserves freedom from
duplicates (it only appends URLs not already present). -/
theorem addCands_nodup (maxN : Nat) (ext : String) :
    ∀ (us docUrls : List String), docUrls.Nodup →
      (addCands maxN ext docUrls us).Nodup := by
  intro us
  induction us with
  | nil => intro docUrls h; simpa [addCands] using h
  | cons u us ih =>
    intro docUrls h
    simp only [addCands]
    by_cases hc : (pyEndsWith (pyLower u) ext && !(docUrls.contains u)) = true
    · rw [if_pos hc]
      have hu : u ∉ docUrls := by
        have hc2 := hc
        simp only [Bool.and_eq_true] at hc2
        simpa using hc2.2
      have hd : (docUrls ++ [u]).Nodup := by
        simp [List.nodup_append, h, hu]
      by_cases hm : maxN ≤ (docUrls ++ [u]).length
      · rw [if_pos hm]; exact hd
      · rw [if_neg hm]; exact ih (docUrls ++ [u]) hd
    · rw [if_neg hc]
      exact ih docUrls h

/-- Helper for C3: every URL the consumption loop adds ends, after
lowercasing the whole URL string, with the current extension. -/
theorem addCands_mem (maxN : Nat) (ext : String) :
    ∀ (us docUrls : List String), ∀ u ∈ addCands maxN ext docUrls us,
      u ∈ docUrls ∨ pyEndsWith (pyLower u) ext = true := by
  intro us
  induction us with
  | nil => intro docUrls u hu; exact Or.inl (by simpa [addCands] using hu)
  | cons v us ih =>
    intro docUrls u hu
    simp only [addCands] at hu
    by_cases hc : (pyEndsWith (pyLower v) ext && !(docUrls.contains v)) = true
    · rw [if_pos hc] at hu
      have hv : pyEndsWith (pyLower v) ext = true := by
        have hc2 := hc
        simp only [Bool.and_eq_true] at hc2
        exact hc2.1
      by_cases hm : maxN ≤ (docUrls ++ [v]).length
      · rw [if_pos hm] at hu
        rcases List.mem_append.mp hu with h | h
        · exact Or.inl h
        · exact Or.inr (by simpa [List.mem_singleton.mp h] using hv)
      · rw [if_neg hm] at hu
        rcases ih (docUrls ++ [v]) u hu with h | h
        · rcases List.mem_append.mp h with h1 | h1
          · exact Or.inl h1
          · exact Or.inr (by simpa [List.mem_singleton.mp h1] using hv)
        · exact Or.inr h
    · rw [if_neg hc] at hu
      exact ih docUrls u hu

/-- Helper for C3: planner-loop invariant, generalized over the
already-accumulated list. -/
theorem planLoop_inv (engines : List (String × (String → List String)))
    (subject : String) (maxN : Nat) :
    ∀ (allowed : List (String × String)) (docUrls : List String),
      docUrls.length ≤ maxN → docUrls.Nodup →
      (planLoop engines subject maxN allowed docUrls).1.length ≤ maxN
      ∧ (planLoop engines subject maxN allowed docUrls).1.Nodup
      ∧ ∀ u ∈ (planLoop engines subject maxN allowed docUrls).1,
          u ∈ docUrls ∨ ∃ ext, (∃ m, (ext, m) ∈ allowed) ∧ pyEndsWith (pyLower u) ext = true := by
  intro allowed
  induction allowed with
  | nil =>
    intro docUrls hlen hnd
    exact ⟨by simpa [planLoop] using hlen, by simpa [planLoop] using hnd,
      fun u hu => Or.inl (by simpa [planLoop] using hu)⟩
  | cons p rest ih =>
    intro docUrls hlen hnd
    obtain ⟨ext, mim⟩ := p
    simp only [planLoop]
    by_cases hm : maxN ≤ docUrls.length
    · rw [if_pos hm]
      exact ⟨hlen, hnd, fun u hu => Or.inl hu⟩
    · rw [if_neg hm]
      have hlt : docUrls.length < maxN := Nat.lt_of_not_le hm
      set results :=
        (tryEngines engines (subject ++ " filetype:" ++ String.mk (ext.data.dropWhile (· = '.')))).1
        with hres
      have h1 := addCands_length maxN ext results docUrls hlt
      have h2 := addCands_nodup maxN ext results docUrls hnd
      obtain ⟨ih1, ih2, ih3⟩ := ih (addCands maxN ext docUrls results) h1 h2
      refine ⟨ih1, ih2, fun u hu => ?_⟩
      rcases ih3 u hu with h | ⟨e, ⟨m, hme⟩, hend⟩
      · rcases addCands_mem maxN ext results docUrls u h with h' | h'
        · exact Or.inl h'
        · exact Or.inr ⟨ext, ⟨mim, List.mem_cons_self _ _⟩, h'⟩
      · exact Or.inr ⟨e, ⟨m, List.mem_cons_of_mem _ hme⟩, hend⟩

/-- C3 (amended): for every engine set, subject, allowed-extension
list and maximum `maxN`, the candidate list accumulated by the planner
loop has no duplicate URLs, never exceeds `maxN` entries, and every
URL in it — the full URL string, lowercased, not merely its path —
ends with some extension of the allow-list. -/
theorem wd_C3 (engines : List (String × (String → List String)))
    (subject : String) (maxN : Nat) (allowed : List (String × String)) :
    (planLoop engines subject maxN allowed []).1.length ≤ maxN
    ∧ (planLoop engines subject maxN allowed []).1.Nodup
    ∧ ∀ u ∈ (planLoop engines subject maxN allowed []).1,
        ∃ ext, (∃ m, (ext, m) ∈ allowed) ∧ pyEndsWith (pyLower u) ext = true := by
  obtain ⟨h1, h2, h3⟩ :=
    planLoop_inv engines subject maxN allowed [] (by simp) List.nodup_nil
  refine ⟨h1, h2, fun u hu => ?_⟩
  rcases h3 u hu with h | h
  · exact absurd h (List.not_mem_nil u)
  · exact h

/-- Witness for C3: the planner bound and dedup at a concrete run that
collects two of three offered URLs (one is a duplicate). -/
theorem wd_C3_witness :
    (planLoop [("e", fun _ => ["http://h/a.pdf", "http://h/b.pdf", "http://h/a.pdf"])]
        "s" 5 [(".pdf", "application/pdf")] []).1.length ≤ 5 :=
  (wd_C3 [("e", fun _ => ["http://h/a.pdf", "http://h/b.pdf", "http://h/a.pdf"])]
    "s" 5 [(".pdf", "application/pdf")]).1

/-- Counterexample for C3 as stated: the code filters on the whole URL
string, not on its path. The planner accepts
`http://h/x?y=.pdf`, whose `urlparse` path `/x` does not end with
`.pdf` (nor with any extension of the allow-list). -/
theorem wd_C3_cex :
    (planLoop [("e", fun _ => ["http://h/x?y=.pdf"])] "s" 5
        [(".pdf", "application/pdf")] []).1 = ["http://h/x?y=.pdf"]
    ∧ urlPath "http://h/x?y=.pdf" = "/x"
    ∧ pyEndsWith (pyLower (urlPath "http://h/x?y=.pdf")) ".pdf" = false := by
  refine ⟨by decide, by decide, by decide⟩

end WD

namespace WD

/-- Pointwise evaluation helpers for the filesystem model. -/
theorem fsSet_self (fs : FS) (n c : String) : fsSet fs n c n = some c := by
  simp [fsSet]

theorem fsSet_other (fs : FS) (n c m : String) (h : m ≠ n) : fsSet fs n c m = fs m := by
  simp [fsSet, h]

theorem fsDel_self (fs : FS) (n : String) : fsDel fs n n = none := by
  simp [fsDel]

theorem fsDel_other (fs : FS) (n m : String) (h : m ≠ n) : fsDel fs n m = fs m := by
  simp [fsDel, h]

/-- C1 (amended): with the destination already carrying an allowed
extension, `download_file` accepts the body iff the sniffed MIME
STRING STARTS WITH the canonical MIME's primary type (the code tests
`mime.startswith(expected.split('/')[0])`, not equality of the two
primary types); on mismatch the temporary file is deleted and no other
name changes, so no destination is created. With no allowed extension
on the destination, the table is searched for an exact sniffed-MIME
match and the first matching extension is adopted; with no exact match
the download is rejected, the temporary file deleted and no
destination created. -/
theorem wd_C1 (sniff : String → String) (allowed : List (String × String))
    (dest body : String) (fs0 : FS) :
    (∀ m, dictLookup allowed (pyLower (nameSuffix dest)) = some m →
      ((download_file sniff allowed dest body fs0).1 = true ↔
        pyStartsWith (sniff body) (mimePrimary m) = true)
      ∧ (pyStartsWith (sniff body) (mimePrimary m) = false →
          (download_file sniff allowed dest body fs0).2.2 (tmpName dest) = none
          ∧ ∀ n, n ≠ tmpName dest →
              (download_file sniff allowed dest body fs0).2.2 n = fs0 n))
    ∧ (dictLookup allowed (pyLower (nameSuffix dest)) = none →
      ((download_file sniff allowed dest body fs0).1 = true ↔
        ∃ p ∈ allowed, p.2 = sniff body)
      ∧ (∀ p, allowed.find? (fun q => q.2 = sniff body) = some p →
          (download_file sniff allowed dest body fs0).2.1 = withSuffix dest p.1)
      ∧ (allowed.find? (fun q => q.2 = sniff body) = none →
          (download_file sniff allowed dest body fs0).2.2 (tmpName dest) = none
          ∧ ∀ n, n ≠ tmpName dest →
              (download_file sniff allowed dest body fs0).2.2 n = fs0 n)) := by
  constructor
  · intro m hm
    constructor
    · cases hsw : pyStartsWith (sniff body) (mimePrimary m) with
      | true => simp [download_file, hm, hsw]
      | false => simp [download_file, hm, hsw]
    · intro hsw
      simp only [download_file, hm, hsw, Bool.false_eq_true, if_false]
      exact ⟨fsDel_self _ _, fun n hn => by
        rw [fsDel_other _ _ _ hn, fsSet_other _ _ _ _ hn]⟩
  · intro hm
    refine ⟨?_, ?_, ?_⟩
    · cases hf : allowed.find? (fun q => q.2 = sniff body) with
      | none =>
        simp only [download_file, hm, hf]
        constructor
        · intro h; exact absurd h (by simp)
        · intro ⟨p, hp, hpe⟩
          have := List.find?_eq_none.mp hf p hp
          simp [hpe] at this
      | some p =>
        simp only [download_file, hm, hf]
        have hp := List.find?_some hf
        have hmem := List.mem_of_find?_eq_some hf
        simp only [decide_eq_true_eq] at hp
        constructor
        · intro _
          exact ⟨p, hmem, hp⟩
        · intro _
          trivial
    · intro p hf
      simp [download_file, hm, hf]
    · intro hf
      simp only [download_file, hm, hf]
      exact ⟨fsDel_self _ _, fun n hn => by
        rw [fsDel_other _ _ _ hn, fsSet_other _ _ _ _ hn]⟩

/-- Witness for C1: with the full table, a `.pdf` destination and a
sniffed `application/pdf` body is accepted, while a `.txt` destination
with the same sniffed body is rejected and its temporary file
deleted. -/
theorem wd_C1_witness :
    (download_file (fun _ => "application/pdf") ALL_EXTENSIONS "a.pdf" "B"
        (fun _ => none)).1 = true
    ∧ (download_file (fun _ => "application/pdf") ALL_EXTENSIONS "a.txt" "B"
        (fun _ => none)).2.2 (tmpName "a.txt") = none :=
  ⟨((wd_C1 (fun _ => "application/pdf") ALL_EXTENSIONS "a.pdf" "B" (fun _ => none)).1
      "application/pdf" (by decide)).1.mpr (by decide),
   (((wd_C1 (fun _ => "application/pdf") ALL_EXTENSIONS "a.txt" "B" (fun _ => none)).1
      "text/plain" (by decide)).2 (by decide)).1⟩

/-- Counterexample for C1 as stated: the code tests
`mime.startswith(primary)`, not primary-type equality. A body sniffed
as `textual/whatsit` is ACCEPTED for a `.txt` destination (allow-list
`parse_only "txt"`), although its primary type `textual` differs from
the canonical primary type `text`. -/
theorem wd_C1_cex :
    parse_only "txt" = Except.ok [(".txt", "text/plain")]
    ∧ (download_file (fun _ => "textual/whatsit") [(".txt", "text/plain")] "a.txt" "B"
        (fun _ => none)).1 = true
    ∧ mimePrimary "textual/whatsit" ≠ mimePrimary "text/plain" :=
  ⟨by rfl, by decide, by decide⟩

end WD

namespace WD

/-- Helper for C2: every intermediate streaming state differs from the
initial filesystem only at the temporary name. -/
theorem chunkStates_shape (fs0 : FS) (tmp body : String) (k : Nat) :
    ∀ fs' ∈ chunkStates fs0 tmp body k, ∃ c, fs' = fsSet fs0 tmp c := by
  intro fs' h
  simp only [chunkStates, List.mem_cons, List.mem_map, List.mem_range] at h
  rcases h with h | ⟨i, _, h⟩
  · exact ⟨"", h⟩
  · exact ⟨_, h.symm⟩

/-- Helper for C2 and C7: pointwise description of the filesystem
`download_file` leaves behind, at any name other than its temporary
file: either the name is untouched, or the download was accepted, the
name is the final destination and it now holds exactly the fully
streamed body. -/
theorem download_file_pointwise (sniff : String → String) (allowed : List (String × String))
    (dest body : String) (fs0 : FS) (n : String) (hn : n ≠ tmpName dest) :
    (download_file sniff allowed dest body fs0).2.2 n = fs0 n
    ∨ ((download_file sniff allowed dest body fs0).1 = true
        ∧ n = (download_file sniff allowed dest body fs0).2.1
        ∧ (download_file sniff allowed dest body fs0).2.2 n = some body) := by
  rcases hdl : dictLookup allowed (pyLower (nameSuffix dest)) with _ | m
  · rcases hf : allowed.find? (fun q => q.2 = sniff body) with _ | p
    · left
      simp only [download_file, hdl, hf]
      rw [fsDel_other _ _ _ hn, fsSet_other _ _ _ _ hn]
    · by_cases hd : n = withSuffix dest p.1
      · right
        simp only [download_file, hdl, hf]
        subst hd
        exact ⟨trivial, rfl, fsSet_self _ _ _⟩
      · left
        simp only [download_file, hdl, hf]
        rw [fsSet_other _ _ _ _ hd, fsDel_other _ _ _ hn, fsSet_other _ _ _ _ hn]
  · cases hsw : pyStartsWith (sniff body) (mimePrimary m) with
    | false =>
      left
      simp only [download_file, hdl, hsw, Bool.false_eq_true, if_false]
      rw [fsDel_other _ _ _ hn, fsSet_other _ _ _ _ hn]
    | true =>
      by_cases hd : n = dest
      · right
        simp only [download_file, hdl, hsw, if_true]
        subst hd
        exact ⟨trivial, rfl, fsSet_self _ _ _⟩
      · left
        simp only [download_file, hdl, hsw, if_true]
        rw [fsSet_other _ _ _ _ hd, fsDel_other _ _ _ hn, fsSet_other _ _ _ _ hn]

/-- Helper for C2: a name is its stem followed by its suffix. -/
theorem stem_append_suffix (n : String) : nameStem n ++ nameSuffix n = n := by
  have key : (nameStem n).data ++ (nameSuffix n).data = n.data := by
    unfold nameStem nameSuffix
    rcases lastDotIdx n.data with _ | i
    · simp
    · by_cases hi : 0 < i ∧ i < n.data.length - 1
      · have hi2 : 0 < i ∧ i < n.length - 1 := hi
        simp [hi, hi2]
      · have hi2 : ¬(0 < i ∧ i < n.length - 1) := hi
        simp [hi, hi2]
  apply String.ext
  rw [String.data_append]
  exact key

/-- Helper for C2: `dest.with_suffix(dest.suffix + '.part')` is the
destination name with `.part` appended. -/
theorem tmpName_eq (dest : String) : tmpName dest = dest ++ ".part" := by
  unfold tmpName withSuffix
  conv_rhs => rw [← stem_append_suffix dest]
  rw [String.append_assoc]

/-- C2: in every scenario — the GET raising, the stream breaking after
any number of chunks, or a complete run — every filesystem state made
observable by `download_file` agrees with the initial filesystem on
every name other than the `.part` temporary: a file under any final
name is created only as the last step of an accepted, fully streamed
and content-verified download, holding exactly the full body. A
rejection or mid-stream failure never leaves a partial file under a
final name. -/
theorem wd_C2 (sniff : String → String) (allowed : List (String × String))
    (dest body : String) (fs0 : FS) (sc : DLScenario) :
    tmpName dest = dest ++ ".part"
    ∧ ∀ fs' ∈ download_file_trace sniff allowed dest body fs0 sc, ∀ n, n ≠ tmpName dest →
      fs' n = fs0 n
      ∨ ((download_file sniff allowed dest body fs0).1 = true
          ∧ n = (download_file sniff allowed dest body fs0).2.1
          ∧ fs' n = some body) := by
  refine ⟨tmpName_eq dest, ?_⟩
  intro fs' hmem n hn
  cases sc with
  | getFails =>
    have : fs' = fs0 := by simpa [download_file_trace] using hmem
    exact Or.inl (by rw [this])
  | streamFails k =>
    simp only [download_file_trace, List.mem_cons] at hmem
    rcases hmem with h | h
    · exact Or.inl (by rw [h])
    · obtain ⟨c, hc⟩ := chunkStates_shape fs0 (tmpName dest) body _ fs' h
      exact Or.inl (by rw [hc, fsSet_other _ _ _ _ hn])
  | complete =>
    have hmem2 : fs' ∈ fs0 :: (chunkStates fs0 (tmpName dest) body (numChunks body) ++
        [(download_file sniff allowed dest body fs0).2.2]) := hmem
    rcases List.mem_cons.mp hmem2 with h | h2
    · exact Or.inl (by rw [h])
    · rcases List.mem_append.mp h2 with h | h
      · obtain ⟨c, hc⟩ := chunkStates_shape fs0 (tmpName dest) body _ fs' h
        exact Or.inl (by rw [hc, fsSet_other _ _ _ _ hn])
      · rw [List.mem_singleton.mp h]
        exact download_file_pointwise sniff allowed dest body fs0 n hn

/-- Witness for C2: a complete accepted run, observed at the final
destination name, exercises the right-hand disjunct — the final name
holds exactly the verified body. -/
theorem wd_C2_witness :
    (download_file (fun _ => "application/pdf") ALL_EXTENSIONS "a.pdf" "B"
        (fun _ => none)).2.2 "a.pdf" = (fun _ => none : FS) "a.pdf"
    ∨ ((download_file (fun _ => "application/pdf") ALL_EXTENSIONS "a.pdf" "B"
          (fun _ => none)).1 = true
        ∧ "a.pdf" = (download_file (fun _ => "application/pdf") ALL_EXTENSIONS "a.pdf" "B"
            (fun _ => none)).2.1
        ∧ (download_file (fun _ => "application/pdf") ALL_EXTENSIONS "a.pdf" "B"
            (fun _ => none)).2.2 "a.pdf" = some "B") :=
  (wd_C2 (fun _ => "application/pdf") ALL_EXTENSIONS "a.pdf" "B" (fun _ => none)
    DLScenario.complete).2 _
    (List.mem_cons_of_mem _ (List.mem_append_right _ (List.mem_singleton_self _)))
    "a.pdf" (by decide)

/-- C7 (amended): promotion of the `.part` file is a plain `rename`,
which REPLACES an existing destination: after any accepted download
the final destination name holds exactly the newly downloaded body,
whatever file previously occupied that name — a colliding prior file's
content is silently overwritten, not preserved. -/
theorem wd_C7 (sniff : String → String) (allowed : List (String × String))
    (dest body : String) (fs0 : FS)
    (h : (download_file sniff allowed dest body fs0).1 = true) :
    (download_file sniff allowed dest body fs0).2.2
      ((download_file sniff allowed dest body fs0).2.1) = some body := by
  rcases hdl : dictLookup allowed (pyLower (nameSuffix dest)) with _ | m
  · rcases hf : allowed.find? (fun q => q.2 = sniff body) with _ | p
    · simp [download_file, hdl, hf] at h
    · simp only [download_file, hdl, hf]
      exact fsSet_self _ _ _
  · cases hsw : pyStartsWith (sniff body) (mimePrimary m) with
    | false => simp [download_file, hdl, hsw] at h
    | true =>
      simp only [download_file, hdl, hsw, if_true]
      exact fsSet_self _ _ _

/-- Witness for C7: a concrete accepted download over an occupied
destination leaves the new body there. -/
theorem wd_C7_witness :
    (download_file (fun _ => "application/pdf") ALL_EXTENSIONS "a.pdf" "NEW"
        (fun n => if n = "a.pdf" then some "OLD" else none)).2.2
      ((download_file (fun _ => "application/pdf") ALL_EXTENSIONS "a.pdf" "NEW"
        (fun n => if n = "a.pdf" then some "OLD" else none)).2.1) = some "NEW" :=
  wd_C7 (fun _ => "application/pdf") ALL_EXTENSIONS "a.pdf" "NEW"
    (fun n => if n = "a.pdf" then some "OLD" else none) (by decide)

/-- Counterexample for C7 as stated: a destination name `a.pdf`
already occupied by a prior file with content `OLD` is silently
overwritten by an accepted download with body `NEW` — the prior
content IS replaced. -/
theorem wd_C7_cex :
    (fun n => if n = "a.pdf" then some "OLD" else none : FS) "a.pdf" = some "OLD"
    ∧ (download_file (fun _ => "application/pdf") ALL_EXTENSIONS "a.pdf" "NEW"
        (fun n => if n = "a.pdf" then some "OLD" else none)).1 = true
    ∧ (download_file (fun _ => "application/pdf") ALL_EXTENSIONS "a.pdf" "NEW"
        (fun n => if n = "a.pdf" then some "OLD" else none)).2.2 "a.pdf" = some "NEW"
    ∧ some "NEW" ≠ some "OLD" :=
  ⟨by decide, by decide, by decide, by decide⟩

end WD

namespace WD

/-- Helper for C10: `find?` returns the first list element satisfying
the predicate. -/
theorem find_first (p : String × String → Bool) :
    ∀ (l : List (String × String)) (i : Nat) (a : String × String),
      l.get? i = some a → p a = true →
      (∀ j, j < i → ∀ b, l.get? j = some b → p b = false) →
      l.find? p = some a := by
  intro l
  induction l with
  | nil => intro i a h _ _; simp at h
  | cons x xs ih =>
    intro i a ha hpa hprev
    cases i with
    | zero =>
      simp only [List.get?] at ha
      rw [List.find?_cons_of_pos _ (by rw [Option.some_inj.mp ha]; exact hpa)]
      exact ha
    | succ i =>
      have hx : p x = false := hprev 0 (Nat.succ_pos i) x rfl
      rw [List.find?_cons_of_neg _ (by simp [hx])]
      exact ih i a (by simpa using ha) hpa
        (fun j hj b hb => hprev (j + 1) (Nat.succ_lt_succ hj) b hb)

/-- C10: when the destination carries no allowed extension and the
sniffed MIME equals the canonical MIME of the `i`-th allowed entry
while no earlier entry's MIME matches, `download_file` accepts and
adopts exactly that entry's extension — the first match in the
mapping's insertion order. In particular, with the full table a body
sniffed `text/markdown` is saved as `.md` (never `.markdown`) and one
sniffed `text/html` as `.html` (never `.htm`). -/
theorem wd_C10 (sniff : String → String) (allowed : List (String × String))
    (dest body : String) (fs0 : FS) :
    (∀ i e m, dictLookup allowed (pyLower (nameSuffix dest)) = none →
      allowed.get? i = some (e, m) → m = sniff body →
      (∀ j, j < i → ∀ q : String × String, allowed.get? j = some q → q.2 ≠ sniff body) →
      (download_file sniff allowed dest body fs0).1 = true
      ∧ (download_file sniff allowed dest body fs0).2.1 = withSuffix dest e)
    ∧ (download_file (fun _ => "text/markdown") ALL_EXTENSIONS "x" body fs0).2.1 = "x.md"
    ∧ (download_file (fun _ => "text/html") ALL_EXTENSIONS "x" body fs0).2.1 = "x.html" := by
  refine ⟨?_, rfl, rfl⟩
  intro i e m hdl hi hm hprev
  have hf : allowed.find? (fun q => q.2 = sniff body) = some (e, m) := by
    apply find_first _ allowed i (e, m) hi (by simp [hm])
    intro j hj b hb
    simp [hprev j hj b hb]
  simp [download_file, hdl, hf]

/-- Witness for C10: with the full table, a destination without
extension and a body sniffed `text/markdown`, the fourth table entry
(`.md`) is the first MIME match and is adopted. -/
theorem wd_C10_witness :
    (download_file (fun _ => "text/markdown") ALL_EXTENSIONS "x" "B" (fun _ => none)).1 = true
    ∧ (download_file (fun _ => "text/markdown") ALL_EXTENSIONS "x" "B"
        (fun _ => none)).2.1 = withSuffix "x" ".md" :=
  (wd_C10 (fun _ => "text/markdown") ALL_EXTENSIONS "x" "B" (fun _ => none)).1
    3 ".md" "text/markdown" (by decide) (by decide) rfl
    (by
      intro j hj q hq
      interval_cases j <;>
        simp only [ALL_EXTENSIONS, List.get?] at hq <;>
        rw [← Option.some_inj.mp hq] <;> decide)

end WD

namespace WD

/-- Helper for C8: what a `dictInsert` result can contain. -/
theorem mem_dictInsert (d : List (String × String)) (k v : String) :
    ∀ p ∈ dictInsert d k v, p ∈ d ∨ p = (k, v) := by
  intro p hp
  unfold dictInsert at hp
  by_cases h : d.any (fun q => q.1 = k) = true
  · rw [if_pos h] at hp
    obtain ⟨q, hq, hqe⟩ := List.mem_map.mp hp
    by_cases hk : q.1 = k
    · right; rw [← hqe, if_pos hk]
    · left; rw [← hqe, if_neg hk]; exact hq
  · rw [if_neg h] at hp
    rcases List.mem_append.mp hp with h1 | h1
    · exact Or.inl h1
    · exact Or.inr (List.mem_singleton.mp h1)

/-- Helper for C8: after `dictInsert d k v` the key `k` is present. -/
theorem dictInsert_key (d : List (String × String)) (k v : String) :
    ∃ p ∈ dictInsert d k v, p.1 = k := by
  unfold dictInsert
  by_cases h : d.any (fun q => q.1 = k) = true
  · rw [if_pos h]
    obtain ⟨q, hq, hqk⟩ := List.any_eq_true.mp h
    simp only [decide_eq_true_eq] at hqk
    exact ⟨(k, v), List.mem_map.mpr ⟨q, hq, by rw [if_pos hqk]⟩, rfl⟩
  · rw [if_neg h]
    exact ⟨(k, v), List.mem_append_right _ (List.mem_singleton_self _), rfl⟩

/-- Helper for C8: `dictInsert` never loses a key. -/
theorem dictInsert_key_stable (d : List (String × String)) (k v k' : String) :
    (∃ p ∈ d, p.1 = k') → ∃ p ∈ dictInsert d k v, p.1 = k' := by
  intro ⟨q, hq, hqk⟩
  unfold dictInsert
  by_cases h : d.any (fun r => r.1 = k) = true
  · rw [if_pos h]
    by_cases hk : q.1 = k
    · exact ⟨(k, v), List.mem_map.mpr ⟨q, hq, by rw [if_pos hk]⟩, by rw [← hqk, hk]⟩
    · exact ⟨q, List.mem_map.mpr ⟨q, hq, by rw [if_neg hk]⟩, hqk⟩
  · rw [if_neg h]
    exact ⟨q, List.mem_append_left _ hq, hqk⟩

/-- Helper for C8: the token fold fails exactly when some token's
normalised key is missing from the table. -/
theorem parse_fold_error :
    ∀ (toks : List String) (acc : List (String × String)),
      (∃ e, List.foldlM parseStep acc toks = Except.error e) ↔
        ∃ tok ∈ toks, dictLookup ALL_EXTENSIONS (normKey tok) = none := by
  intro toks
  induction toks with
  | nil =>
    intro acc
    constructor
    · intro ⟨e, he⟩
      exact absurd he (by intro h; cases h)
    · intro ⟨tok, htok, _⟩; exact absurd htok (List.not_mem_nil tok)
  | cons t ts ih =>
    intro acc
    rcases hd : dictLookup ALL_EXTENSIONS (normKey t) with _ | m
    · constructor
      · intro _; exact ⟨t, List.mem_cons_self t ts, hd⟩
      · intro _
        refine ⟨"Unsupported extension: " ++ normTok t, ?_⟩
        have hstep : parseStep acc t =
            Except.error ("Unsupported extension: " ++ normTok t) := by
          simp [parseStep, hd]
        show (parseStep acc t >>= fun a => List.foldlM parseStep a ts) = _
        rw [hstep]
        rfl
    · have hstep : parseStep acc t = Except.ok (dictInsert acc (normKey t) m) := by
        simp [parseStep, hd]
      have step : List.foldlM parseStep acc (t :: ts) =
          List.foldlM parseStep (dictInsert acc (normKey t) m) ts := by
        show (parseStep acc t >>= fun a => List.foldlM parseStep a ts) = _
        rw [hstep]
        rfl
      rw [step]
      constructor
      · intro he
        obtain ⟨tok, htok, hmiss⟩ := (ih _).mp he
        exact ⟨tok, List.mem_cons_of_mem t htok, hmiss⟩
      · intro ⟨tok, htok, hmiss⟩
        rcases List.mem_cons.mp htok with h1 | h1
        · rw [h1] at hmiss; rw [hd] at hmiss; exact absurd hmiss (by simp)
        · exact (ih _).mpr ⟨tok, h1, hmiss⟩

/-- Helper for C8: on success, the fold's result maps each token's
normalised key to its canonical table MIME (and holds nothing else
beyond the accumulator). -/
theorem parse_fold_ok :
    ∀ (toks : List String) (acc d : List (String × String)),
      List.foldlM parseStep acc toks = Except.ok d →
      (∀ p ∈ acc, dictLookup ALL_EXTENSIONS p.1 = some p.2 ∨ p ∈ acc) →
      ((∀ p ∈ acc, dictLookup ALL_EXTENSIONS p.1 = some p.2) →
        ∀ p ∈ d, dictLookup ALL_EXTENSIONS p.1 = some p.2)
      ∧ (∀ tok ∈ toks, ∃ p ∈ d, p.1 = normKey tok)
      ∧ (∀ k, (∃ p ∈ acc, p.1 = k) → ∃ p ∈ d, p.1 = k)
      ∧ (∀ p ∈ d, p ∈ acc ∨ ∃ tok ∈ toks, p.1 = normKey tok) := by
  intro toks
  induction toks with
  | nil =>
    intro acc d hfold _
    have had : acc = d := by
      have : Except.ok (ε := String) acc = Except.ok d := hfold
      exact Except.ok.inj this
    subst had
    exact ⟨fun h p hp => h p hp, fun tok htok => absurd htok (List.not_mem_nil tok),
      fun k hk => hk, fun p hp => Or.inl hp⟩
  | cons t ts ih =>
    intro acc d hfold _
    rcases hd : dictLookup ALL_EXTENSIONS (normKey t) with _ | m
    · exfalso
      have hstep : parseStep acc t =
          Except.error ("Unsupported extension: " ++ normTok t) := by
        simp [parseStep, hd]
      have herr : List.foldlM parseStep acc (t :: ts) =
          Except.error ("Unsupported extension: " ++ normTok t) := by
        show (parseStep acc t >>= fun a => List.foldlM parseStep a ts) = _
        rw [hstep]
        rfl
      rw [hfold] at herr
      cases herr
    · have hstep : parseStep acc t = Except.ok (dictInsert acc (normKey t) m) := by
        simp [parseStep, hd]
      have step : List.foldlM parseStep acc (t :: ts) =
          List.foldlM parseStep (dictInsert acc (normKey t) m) ts := by
        show (parseStep acc t >>= fun a => List.foldlM parseStep a ts) = _
        rw [hstep]
        rfl
      rw [step] at hfold
      obtain ⟨ih1, ih2, ih3, ih4⟩ := ih (dictInsert acc (normKey t) m) d hfold
        (fun p hp => Or.inr hp)
      refine ⟨?_, ?_, ?_, ?_⟩
      · intro hacc p hp
        apply ih1 _ p hp
        intro q hq
        rcases mem_dictInsert acc (normKey t) m q hq with h1 | h1
        · exact hacc q h1
        · rw [h1]; exact hd
      · intro tok htok
        rcases List.mem_cons.mp htok with h1 | h1
        · rw [h1]
          exact ih3 (normKey t) (dictInsert_key acc (normKey t) m)
        · exact ih2 tok h1
      · intro k hk
        exact ih3 k (dictInsert_key_stable acc (normKey t) m k hk)
      · intro p hp
        rcases ih4 p hp with h1 | ⟨tok, htok, hkey⟩
        · rcases mem_dictInsert acc (normKey t) m p h1 with h2 | h2
          · exact Or.inl h2
          · exact Or.inr ⟨t, List.mem_cons_self t ts, by rw [h2]⟩
        · exact Or.inr ⟨tok, List.mem_cons_of_mem t htok, hkey⟩

/-- C8 (amended): a token of the allow-list option is matched after
trimming, lowercasing and stripping ALL leading dots (`lstrip('.')`);
an option string containing a token whose normalised key is not in the
fixed table makes `parse_only` raise, and the error occurs before any
engine search is invoked (the search-phase log of `main` is empty);
when every token is supported, `parse_only` succeeds with exactly the
mapping of each normalised `.ext` key to its canonical table MIME. -/
theorem wd_C8 (arg : String) :
    ((∃ e, parse_only arg = Except.error e) ↔
      ∃ tok ∈ pySplit ',' arg, dictLookup ALL_EXTENSIONS (normKey tok) = none)
    ∧ (∀ d, parse_only arg = Except.ok d →
        (∀ p ∈ d, dictLookup ALL_EXTENSIONS p.1 = some p.2)
        ∧ (∀ tok ∈ pySplit ',' arg, ∃ p ∈ d, p.1 = normKey tok)
        ∧ (∀ p ∈ d, ∃ tok ∈ pySplit ',' arg, p.1 = normKey tok))
    ∧ (∀ (engines : List (String × (String → List String))) (subject : String)
        (maxN : Nat) (e : String), parse_only arg = Except.error e →
        mainSearchPhase engines subject maxN (some arg) = (Except.error e, [])) := by
  refine ⟨parse_fold_error (pySplit ',' arg) [], ?_, ?_⟩
  · intro d hok
    obtain ⟨h1, h2, _, h4⟩ :=
      parse_fold_ok (pySplit ',' arg) [] d hok (fun p hp => Or.inr hp)
    refine ⟨h1 (fun p hp => absurd hp (List.not_mem_nil p)), h2, ?_⟩
    intro p hp
    rcases h4 p hp with h5 | h5
    · exact absurd h5 (List.not_mem_nil p)
    · exact h5
  · intro engines subject maxN e he
    simp [mainSearchPhase, he]

end WD

namespace WD

/-- Witness for C8: a bad allow-list option makes the whole search
phase fail with the parse error and an empty engine-invocation log. -/
theorem wd_C8_witness :
    mainSearchPhase [("e", fun _ => ["u"])] "s" 5 (some "zip") =
      (Except.error "Unsupported extension: zip", []) :=
  (wd_C8 "zip").2.2 [("e", fun _ => ["u"])] "s" 5 "Unsupported extension: zip" (by rfl)

/-- Token matching rule as worded by the claim: trim, lowercase, strip
ONE leading dot, then compare against the supported extension
tokens. Stated only to be compared with the code's rule, which strips
every leading dot. -/
def claimTokenRule (t : String) : String :=
  match lowerL (stripL t.data) with
  | '.' :: rest => String.mk rest
  | l => String.mk l

/-- Supported extension tokens named by the claim. -/
def supportedTokens : List String :=
  ["pdf", "doc", "docx", "md", "markdown", "html", "htm", "txt"]

/-- Counterexample for C8 as stated: the token `..pdf` does not name a
supported extension under the claim's trim/lowercase/strip-one-dot
matching (it normalises to `.pdf`), yet `parse_only` ACCEPTS it,
because `lstrip('.')` strips every leading dot. -/
theorem wd_C8_cex :
    parse_only "..pdf" = Except.ok [(".pdf", "application/pdf")]
    ∧ claimTokenRule "..pdf" = ".pdf"
    ∧ supportedTokens.contains (claimTokenRule "..pdf") = false :=
  ⟨by rfl, by decide, by decide⟩

/-- Helper for C9: right-stripping only removes characters. -/
theorem rstripL_sublist (l : List Char) : (rstripL l).Sublist l := by
  unfold rstripL
  have h := List.dropWhile_sublist (p := Char.isWhitespace) (l := l.reverse)
  simpa using h.reverse

/-- Helper for C9: the head surviving `dropWhile` fails the predicate. -/
theorem head?_dropWhile (w : Char → Bool) :
    ∀ (l : List Char) (c : Char), (l.dropWhile w).head? = some c → w c = false := by
  intro l
  induction l with
  | nil => intro c h; cases h
  | cons a as ih =>
    intro c h
    by_cases ha : w a = true
    · rw [List.dropWhile_cons_of_pos ha] at h
      exact ih c h
    · rw [List.dropWhile_cons_of_neg ha] at h
      cases Option.some_inj.mp h
      exact Bool.eq_false_iff.mpr ha

/-- C9 (amended): the candidate filename is derived by sanitizing the
STEM of the last `/`-separated component of the FULL URL string (query
and fragment included) — not the basename of the parsed URL path;
sanitization keeps only alphanumerics, space, dot, underscore and
hyphen and trims trailing whitespace, and an empty result is replaced
by the fresh generated token; the destination then receives the parsed
URL path's lowercased extension as its suffix (replacing any apparent
suffix of the sanitized name) exactly when that extension is a key of
the allowed mapping, and stays bare otherwise. -/
theorem wd_C9 :
    (∀ s : String,
      (∀ c ∈ (sanitize_filename s).data,
        c.isAlphanum = true ∨ c = ' ' ∨ c = '.' ∨ c = '_' ∨ c = '-')
      ∧ (∀ c, (sanitize_filename s).data.getLast? = some c → c.isWhitespace = false))
    ∧ (∀ url fresh : String, sanitize_filename (pathStem url) = "" →
        derive_name url fresh = fresh)
    ∧ (∀ url fresh : String, sanitize_filename (pathStem url) ≠ "" →
        derive_name url fresh = sanitize_filename (pathStem url))
    ∧ (∀ (url fresh : String) (allowed : List (String × String)),
        (dictLookup allowed (pyLower (pathSuffix (urlPath url)))).isSome →
        derive_dest url fresh allowed =
          withSuffix (derive_name url fresh) (pyLower (pathSuffix (urlPath url))))
    ∧ (∀ (url fresh : String) (allowed : List (String × String)),
        dictLookup allowed (pyLower (pathSuffix (urlPath url))) = none →
        derive_dest url fresh allowed = derive_name url fresh) := by
  refine ⟨?_, ?_, ?_, ?_, ?_⟩
  · intro s
    constructor
    · intro c hc
      have hc2 : c ∈ s.data.filter
          (fun c => c.isAlphanum || c = ' ' || c = '.' || c = '_' || c = '-') :=
        (rstripL_sublist _).subset hc
      have := (List.mem_filter.mp hc2).2
      simp only [Bool.or_eq_true, decide_eq_true_eq] at this
      tauto
    · intro c hc
      unfold sanitize_filename rstripL at hc
      rw [List.getLast?_reverse] at hc
      exact head?_dropWhile Char.isWhitespace _ c hc
  · intro url fresh h
    simp [derive_name, h]
  · intro url fresh h
    simp [derive_name, h]
  · intro url fresh allowed h
    rcases Option.isSome_iff_exists.mp h with ⟨m, hm⟩
    simp [derive_dest, hm]
  · intro url fresh allowed h
    simp [derive_dest, h]

/-- Witness for C9: a URL whose sanitized stem is empty falls back to
the fresh token, and an allowed `.pdf` path extension is adopted as
the destination suffix. -/
theorem wd_C9_witness :
    derive_name "http://h/%%%" "F" = "F"
    ∧ derive_dest "http://h/a.pdf" "F" ALL_EXTENSIONS =
        withSuffix (derive_name "http://h/a.pdf" "F") ".pdf" :=
  ⟨(wd_C9).2.1 "http://h/%%%" "F" (by decide),
   by
    have h := (wd_C9).2.2.2.1 "http://h/a.pdf" "F" ALL_EXTENSIONS (by decide)
    have he : pyLower (pathSuffix (urlPath "http://h/a.pdf")) = ".pdf" := by decide
    rw [he] at h
    exact h⟩

/-- Counterexample for C9 as stated: for `http://h/doc?id=5` the
claim's derivation — sanitizing the basename of the URL's PATH
(`/doc`, basename `doc`, which its own sanitization leaves unchanged,
whether or not an extension is first removed) — yields `doc`, but the
code sanitizes `Path(url).stem`, i.e. the stem of the last segment of
the whole URL string including its query, and derives `docid5`. -/
theorem wd_C9_cex :
    derive_dest "http://h/doc?id=5" "F" ALL_EXTENSIONS = "docid5"
    ∧ urlPath "http://h/doc?id=5" = "/doc"
    ∧ sanitize_filename (pathName (urlPath "http://h/doc?id=5")) = "doc"
    ∧ sanitize_filename (nameStem (pathName (urlPath "http://h/doc?id=5"))) = "doc"
    ∧ ("docid5" : String) ≠ "doc" :=
  ⟨by decide, by decide, by decide, by decide, by decide⟩

end WD
